import Mathlib

/-!
Shallow embedding of the `limitedlistener` Go package
(github.com/aubermardegan/limitedlistener, file `limitedlistener.go`).

The package wraps a `net.Listener` and throttles the byte rate of every
accepted connection with two `golang.org/x/time/rate` limiters: one global
limiter shared by all connections and one private limiter per connection.

Modelling choices:
- A `rate.Limiter` configuration is the pair of its rate (`SetLimit`) and
  burst (`SetBurst`).  The package always passes integer rates, so both are
  `Int`.  Token accounting and real time are external to the package and are
  not modelled; the claims under study depend only on the configuration
  values and on the ordering of the `WaitN` calls.
- `net` transports are external collaborators: their results (accept errors,
  bytes delivered by a raw read, close errors) enter the model as oracle
  inputs, exactly where the Go code consumes the corresponding return value.
- Pointer identity of a `*LimitedConnection` (the key of the `connections`
  map) is modelled by a natural-number id allocated freshly at `Accept`.
  The map itself is the list of registered ids (no duplicates arise since
  ids are fresh), and `limiters` records the private limiter configuration
  of every connection created so far, registered or not.
-/

/-- Errors of the Go code, as distinguishable values.
`errLimitOutOfRange` and `errInvalidLimits` are the two package-level error
variables; `transport` stands for an arbitrary error produced by the
underlying `net` object; `rateWait` stands for an error returned by
`rate.Limiter.WaitN`; `wrapGlobal e` is the result of
`fmt.Errorf("global: %v", err)` in `Read`, and `wrapLocal e` of
`fmt.Errorf("local: %v", err)`. -/
inductive GoErr where
  | errLimitOutOfRange : GoErr
  | errInvalidLimits : GoErr
  | transport : Nat → GoErr
  | rateWait : Nat → GoErr
  | wrapGlobal : GoErr → GoErr
  | wrapLocal : GoErr → GoErr
deriving DecidableEq, Repr

/-- Configuration of a `rate.Limiter`: its rate (`Limit`) and its burst.
The package only ever uses integer rates. -/
structure Limiter where
  limit : Int
  burst : Int
deriving DecidableEq, Repr

/-- `rate.NewLimiter(rate.Limit(r), b)` at the configuration level. -/
def rateNewLimiter (r : Int) (b : Int) : Limiter := ⟨r, b⟩

/-- State of a `LimitedListener`:
`globalLimiter` and `perConnBandwidthLimit` are the struct fields of the Go
type; `connections` is the set of keys of the `connections` map (connection
ids, in insertion order); `limiters` gives the configuration of the private
limiter of every connection id created so far; `nextId` is the supply of
fresh connection ids (pointer identities). -/
structure LimitedListener where
  globalLimiter : Limiter
  perConnBandwidthLimit : Int
  connections : List Nat
  limiters : Nat → Limiter
  nextId : Nat

/-- `NewLimitedListener(listener, globalLimit, perConnLimit)`:
validates `globalLimit > 0`, `perConnLimit > 0` (else `ErrLimitOutOfRange`)
and `globalLimit >= perConnLimit` (else `ErrInvalidLimits`); on success
builds the global limiter with `rate.NewLimiter(rate.Limit(globalLimit),
globalLimit)` and stores `perConnLimit` with an empty connections map. -/
def NewLimitedListener (globalLimit perConnLimit : Int) :
    Except GoErr LimitedListener :=
  if globalLimit ≤ 0 ∨ perConnLimit ≤ 0 then
    .error .errLimitOutOfRange
  else if globalLimit < perConnLimit then
    .error .errInvalidLimits
  else
    .ok { globalLimiter := rateNewLimiter globalLimit globalLimit
          perConnBandwidthLimit := perConnLimit
          connections := []
          limiters := fun _ => rateNewLimiter 0 0
          nextId := 0 }

/-- `Accept()`: asks the underlying listener for a connection
(`underlying` is its result, an oracle for the external transport).  An
error is returned unchanged and nothing is registered.  On success a
`LimitedConnection` is built by `NewLimitedConnection(conn, l.globalLimiter,
l.perConnBandwidthLimit, l)` — a fresh private limiter with rate and burst
both equal to the current per-connection limit, sharing the global limiter
of the listener — inserted into the `connections` map, and returned (as its
id). -/
def accept (s : LimitedListener) (underlying : Except GoErr Unit) :
    LimitedListener × Except GoErr Nat :=
  match underlying with
  | .error e => (s, .error e)
  | .ok _ =>
      let id := s.nextId
      ({ s with
          connections := s.connections ++ [id]
          limiters := fun j =>
            if j = id then
              rateNewLimiter s.perConnBandwidthLimit s.perConnBandwidthLimit
            else s.limiters j
          nextId := id + 1 },
       .ok id)

/-- `SetLimits(global, perConn)`: returns at once (no error, no mutation)
when `global ≤ 0 || perConn ≤ 0 || global < perConn`; otherwise sets the
rate and burst of the global limiter to `global`, stores `perConn`, and for
every connection in the `connections` map sets the rate and burst of its
private limiter to `perConn`. -/
def setLimits (s : LimitedListener) (global perConn : Int) : LimitedListener :=
  if global ≤ 0 ∨ perConn ≤ 0 ∨ global < perConn then s
  else
    { s with
        globalLimiter := ⟨global, global⟩
        perConnBandwidthLimit := perConn
        limiters := fun id =>
          if id ∈ s.connections then ⟨perConn, perConn⟩ else s.limiters id }

/-- `removeConnection(lc)`: `delete(l.connections, lc)` — removes the key
from the map; removing an absent key is a no-op. -/
def removeConnection (s : LimitedListener) (id : Nat) : LimitedListener :=
  { s with connections := s.connections.filter (fun j => j ≠ id) }

/-- `(*LimitedConnection).Close()`: calls `lc.Conn.Close()` (its result is
the oracle `underlyingErr`), then, when `lc.parentListener != nil`
(`hasParent`), calls `removeConnection` on the parent listener, and returns
the underlying close result unchanged. -/
def closeConn (s : LimitedListener) (id : Nat) (hasParent : Bool)
    (underlyingErr : Option GoErr) : LimitedListener × Option GoErr :=
  let err := underlyingErr
  if hasParent then (removeConnection s id, err) else (s, err)

/-- One externally observable operation on a `LimitedListener`:
a successful `Accept`, an `Accept` whose underlying listener failed,
a `SetLimits` call, or a `Close` of the connection with the given id
(its underlying close result attached). -/
inductive Ev where
  | acceptOk : Ev
  | acceptFail : GoErr → Ev
  | setLim : Int → Int → Ev
  | closeEv : Nat → Option GoErr → Ev
deriving DecidableEq, Repr

/-- Effect of one operation on the listener state.  Connections obtained
from `Accept` always carry a non-nil parent listener, hence `closeConn`
with `hasParent = true`. -/
def step (s : LimitedListener) : Ev → LimitedListener
  | .acceptOk => (accept s (.ok ())).1
  | .acceptFail e => (accept s (.error e)).1
  | .setLim g p => setLimits s g p
  | .closeEv id e => (closeConn s id true e).1

/-- Listener state after a sequence of operations. -/
def run (s : LimitedListener) (evs : List Ev) : LimitedListener :=
  evs.foldl step s

/-- Ids handed out by the successful `Accept` calls of a trace, when the
id supply starts at `n` (ids are allocated sequentially). -/
def acceptedFrom (n : Nat) : List Ev → List Nat
  | [] => []
  | .acceptOk :: t => n :: acceptedFrom (n + 1) t
  | _ :: t => acceptedFrom n t

/-- Ids of the completed `Close` calls of a trace, in order. -/
def closedOf : List Ev → List Nat
  | [] => []
  | .closeEv id _ :: t => id :: closedOf t
  | _ :: t => closedOf t

/-- Number of successful `Accept` calls in a trace. -/
def countAccepts : List Ev → Nat
  | [] => 0
  | .acceptOk :: t => countAccepts t + 1
  | _ :: t => countAccepts t

/-- Well-formedness of a trace whose id supply starts at `n`: `Close` is
only ever called on a connection that some earlier `Accept` returned
(callers cannot name a connection that does not exist yet). -/
def wf (n : Nat) : List Ev → Bool
  | [] => true
  | .acceptOk :: t => wf (n + 1) t
  | .closeEv id _ :: t => decide (id < n) && wf n t
  | _ :: t => wf n t

/-- The burst-equals-rate property of a listener state: the global limiter
and the private limiter of every connection created so far have burst equal
to rate. -/
def burstInv (s : LimitedListener) : Prop :=
  s.globalLimiter.burst = s.globalLimiter.limit ∧
  ∀ id < s.nextId, (s.limiters id).burst = (s.limiters id).limit

/-- A sample listener state with two registered connections, used by the
concrete witnesses below. -/
def sampleListener : LimitedListener :=
  { globalLimiter := ⟨10, 10⟩
    perConnBandwidthLimit := 5
    connections := [0, 1]
    limiters := fun _ => ⟨5, 5⟩
    nextId := 2 }

/-- A token consumption performed by a read or write: `WaitN` on the shared
global limiter or on the private limiter of the connection, with the number
of tokens taken. -/
inductive ConsumeEv where
  | globalConsume : Int → ConsumeEv
  | localConsume : Int → ConsumeEv
deriving DecidableEq, Repr

/-- External inputs consumed by one `(*LimitedConnection).Read` call, in
the order the Go code reads them:
`burst1` is the value `lc.limiter.Burst()` returns at the first check;
`globalWaitErr` is the result of `lc.globalLimiter.WaitN(ctx, allowed)`;
`burst2` is the value `lc.limiter.Burst()` returns at the re-check after
the global wait (a concurrent `SetLimits` may have changed it);
`localWaitErr` is the result of `lc.limiter.WaitN(ctx, allowed)`;
`connRead a` is the result of the underlying `lc.Conn.Read(b[:a])`. -/
structure ReadOracle where
  burst1 : Int
  globalWaitErr : Option GoErr
  burst2 : Int
  localWaitErr : Option GoErr
  connRead : Int → Int × Option GoErr

/-- `(*LimitedConnection).Read(b)` with `lenB = len(b)`:
`allowed := len(b)`, capped to `lc.limiter.Burst()`; wait `allowed` tokens
on the global limiter, returning `fmt.Errorf("global: %v", err)` and 0
bytes on failure; re-check the burst and cap `allowed` again; wait
`allowed` tokens on the private limiter, returning
`fmt.Errorf("local: %v", err)` and 0 bytes on failure; finally return
`lc.Conn.Read(b[:allowed])` unchanged.  The second component lists the
successful token consumptions, in order. -/
def limitedConnectionRead (lenB : Int) (o : ReadOracle) :
    (Int × Option GoErr) × List ConsumeEv :=
  let allowed := lenB
  let allowed := if allowed > o.burst1 then o.burst1 else allowed
  match o.globalWaitErr with
  | some e => ((0, some (.wrapGlobal e)), [])
  | none =>
      let allowed2 := if allowed > o.burst2 then o.burst2 else allowed
      match o.localWaitErr with
      | some e => ((0, some (.wrapLocal e)), [.globalConsume allowed])
      | none =>
          (o.connRead allowed2,
           [.globalConsume allowed, .localConsume allowed2])

/-- `(*LimitedConnection).Write` of the package variant in
`limitedlistener/limitedlistener.go`: the connection there holds a single
private limiter; `Write(b)` calls `lc.limiter.WaitN(context.Background(),
len(b))`, returns the error unchanged with 0 bytes on failure, and
otherwise returns `lc.Conn.Write(b)` (oracle `connWrite`).  The second
component lists the successful token consumptions. -/
def limitedConnectionWrite (lenB : Int) (localWaitErr : Option GoErr)
    (connWrite : Int → Int × Option GoErr) :
    (Int × Option GoErr) × List ConsumeEv :=
  match localWaitErr with
  | some e => ((0, some e), [])
  | none => (connWrite lenB, [.localConsume lenB])

/-- `Write` on the `LimitedConnection` of the main `limitedlistener.go`:
the type declares no `Write` method, so the call is promoted to the
embedded `net.Conn` and reaches the transport untouched — no limiter is
consulted. -/
def limitedConnectionWriteMain (lenB : Int)
    (connWrite : Int → Int × Option GoErr) :
    (Int × Option GoErr) × List ConsumeEv :=
  (connWrite lenB, [])

/-- The capabilities of a Go context that an external party can use to
interrupt a blocked `WaitN`: whether the context can be cancelled and
whether it carries a deadline. -/
structure Ctx where
  cancellable : Bool
  hasDeadline : Bool
deriving DecidableEq, Repr

/-- `context.Background()`: never cancelled, no deadline. -/
def contextBackground : Ctx := ⟨false, false⟩

/-- The context `Read` passes to both `WaitN` calls: the Go code builds it
itself with `ctx := context.Background()` and offers the caller no way to
substitute another one. -/
def readWaitContext : Ctx := contextBackground

/-- Whether any external cancellation or deadline signal can interrupt a
wait running under the given context. -/
def externallyInterruptible (c : Ctx) : Bool :=
  c.cancellable || c.hasDeadline

theorem acceptedFrom_mem_iff (t : List Ev) (n j : Nat) :
    j ∈ acceptedFrom n t ↔ n ≤ j ∧ j < n + countAccepts t := by
  induction t generalizing n with
  | nil => simp [acceptedFrom, countAccepts]
  | cons ev t ih =>
      cases ev with
      | acceptOk =>
          simp only [acceptedFrom, countAccepts, List.mem_cons, ih]
          omega
      | acceptFail e => simpa [acceptedFrom, countAccepts] using ih n
      | setLim g p => simpa [acceptedFrom, countAccepts] using ih n
      | closeEv id e => simpa [acceptedFrom, countAccepts] using ih n

theorem acceptedFrom_nodup (t : List Ev) (n : Nat) :
    (acceptedFrom n t).Nodup := by
  induction t generalizing n with
  | nil => simp [acceptedFrom]
  | cons ev t ih =>
      cases ev with
      | acceptOk =>
          refine List.Nodup.cons ?_ (ih (n + 1))
          intro hmem
          have := (acceptedFrom_mem_iff t (n + 1) n).mp hmem
          omega
      | acceptFail e => exact ih n
      | setLim g p => exact ih n
      | closeEv id e => exact ih n

theorem closedOf_lt (t : List Ev) (n : Nat) (hwf : wf n t = true) :
    ∀ id ∈ closedOf t, id < n + countAccepts t := by
  induction t generalizing n with
  | nil => simp [closedOf]
  | cons ev t ih =>
      cases ev with
      | acceptOk =>
          intro id hid
          have := ih (n + 1) hwf id hid
          simp only [countAccepts]
          omega
      | acceptFail e => exact ih n hwf
      | setLim g p => exact ih n hwf
      | closeEv id e =>
          simp only [wf, Bool.and_eq_true, decide_eq_true_eq] at hwf
          intro j hj
          simp only [closedOf, List.mem_cons] at hj
          rcases hj with rfl | hj
          · omega
          · exact ih n hwf.2 j hj

theorem setLimits_connections (s : LimitedListener) (g p : Int) :
    (setLimits s g p).connections = s.connections := by
  unfold setLimits
  split <;> rfl

theorem setLimits_nextId (s : LimitedListener) (g p : Int) :
    (setLimits s g p).nextId = s.nextId := by
  unfold setLimits
  split <;> rfl

/-- Main registry induction: starting from any state, running a
well-formed trace leaves registered exactly the previously registered
connections not closed by the trace, followed by the connections the
trace accepted and did not close. -/
theorem run_connections (evs : List Ev) (s : LimitedListener)
    (hwf : wf s.nextId evs = true) :
    (run s evs).connections
      = s.connections.filter (fun j => j ∉ closedOf evs)
        ++ (acceptedFrom s.nextId evs).filter (fun j => j ∉ closedOf evs) := by
  induction evs generalizing s with
  | nil => simp [run, closedOf, acceptedFrom]
  | cons ev t ih =>
      cases ev with
      | acceptOk =>
          have hs' : (step s .acceptOk).nextId = s.nextId + 1 := rfl
          have hc' : (step s .acceptOk).connections
              = s.connections ++ [s.nextId] := rfl
          have := ih (step s .acceptOk) (by simpa [hs'] using hwf)
          rw [hs', hc'] at this
          simp only [run, List.foldl_cons] at *
          rw [this]
          simp only [closedOf, acceptedFrom, List.filter_append,
            List.append_assoc]
          rw [← List.filter_append, List.singleton_append]
      | acceptFail e =>
          have := ih (step s (.acceptFail e)) (by simpa using hwf)
          simp only [run, List.foldl_cons] at *
          rw [this]
          rfl
      | setLim g p =>
          have hs' : (step s (.setLim g p)).nextId = s.nextId :=
            setLimits_nextId s g p
          have hc' : (step s (.setLim g p)).connections = s.connections :=
            setLimits_connections s g p
          have := ih (step s (.setLim g p)) (by simpa [hs'] using hwf)
          rw [hs', hc'] at this
          simp only [run, List.foldl_cons] at *
          rw [this]
          rfl
      | closeEv id e =>
          simp only [wf, Bool.and_eq_true, decide_eq_true_eq] at hwf
          have hs' : (step s (.closeEv id e)).nextId = s.nextId := rfl
          have hc' : (step s (.closeEv id e)).connections
              = s.connections.filter (fun j => j ≠ id) := rfl
          have := ih (step s (.closeEv id e)) (by simpa [hs'] using hwf.2)
          rw [hs', hc'] at this
          simp only [run, List.foldl_cons] at *
          rw [this]
          have hleft : (s.connections.filter (fun j => j ≠ id)).filter
                (fun j => j ∉ closedOf t)
              = s.connections.filter (fun j => j ∉ closedOf (.closeEv id e :: t)) := by
            rw [List.filter_filter]
            apply List.filter_congr
            intro j hj
            by_cases h1 : j = id <;> by_cases h2 : j ∈ closedOf t <;>
              simp [closedOf, List.mem_cons, h1, h2]
          have hright : (acceptedFrom s.nextId t).filter (fun j => j ∉ closedOf t)
              = (acceptedFrom s.nextId (.closeEv id e :: t)).filter
                  (fun j => j ∉ closedOf (.closeEv id e :: t)) := by
            show _ = (acceptedFrom s.nextId t).filter _
            apply List.filter_congr
            intro j hj
            have hge := ((acceptedFrom_mem_iff t s.nextId j).mp hj).1
            have hne : j ≠ id := by omega
            simp [closedOf, List.mem_cons, hne]
          rw [hleft, hright]

theorem length_filter_ne (A : List Nat) (c : Nat) (hA : A.Nodup)
    (hc : c ∈ A) :
    (A.filter (fun j => j ≠ c)).length = A.length - 1 := by
  induction A with
  | nil => cases hc
  | cons a A ih =>
      rcases List.mem_cons.mp hc with heq | hcA
      · subst heq
        have hnotin : c ∉ A := (List.nodup_cons.mp hA).1
        have hfa : A.filter (fun j => j ≠ c) = A := by
          apply List.filter_eq_self.mpr
          intro j hj
          exact decide_eq_true (fun h => hnotin (h ▸ hj))
        rw [List.filter_cons_of_neg (by simp), hfa]
        simp
      · have hane : a ≠ c := fun h => (List.nodup_cons.mp hA).1 (h ▸ hcA)
        have hrec := ih (List.nodup_cons.mp hA).2 hcA
        have hpos : 0 < A.length := List.length_pos_of_mem hcA
        have hstep : (a :: A).filter (fun j => j ≠ c)
            = a :: A.filter (fun j => j ≠ c) := by
          simp [List.filter_cons, hane]
        rw [hstep, List.length_cons, hrec, List.length_cons]
        omega

theorem length_filter_not_mem (C A : List Nat) (hA : A.Nodup)
    (hC : C.Nodup) (hsub : ∀ c ∈ C, c ∈ A) :
    (A.filter (fun j => j ∉ C)).length = A.length - C.length := by
  induction C generalizing A with
  | nil => simp
  | cons c C ih =>
      have hcA : c ∈ A := hsub c (List.mem_cons_self c C)
      have hsplit : A.filter (fun j => j ∉ c :: C)
          = (A.filter (fun j => j ≠ c)).filter (fun j => j ∉ C) := by
        rw [List.filter_filter]
        apply List.filter_congr
        intro j hj
        by_cases h1 : j = c <;> by_cases h2 : j ∈ C <;>
          simp [List.mem_cons, h1, h2]
      rw [hsplit]
      have hA' : (A.filter (fun j => j ≠ c)).Nodup := hA.filter _
      have hC' : C.Nodup := (List.nodup_cons.mp hC).2
      have hsub' : ∀ x ∈ C, x ∈ A.filter (fun j => j ≠ c) := by
        intro x hx
        have hxA : x ∈ A := hsub x (List.mem_cons_of_mem c hx)
        have hxc : x ≠ c := by
          intro hxc
          subst hxc
          exact (List.nodup_cons.mp hC).1 hx
        simp [List.mem_filter, hxA, hxc]
      have hlen : (A.filter (fun j => j ≠ c)).length = A.length - 1 :=
        length_filter_ne A c hA hcA
      rw [ih _ hA' hC' hsub', hlen]
      have hCle : C.length ≤ (A.filter (fun j => j ≠ c)).length :=
        (List.subperm_of_subset hC' hsub').length_le
      rw [hlen] at hCle
      simp only [List.length_cons]
      omega

theorem newLimitedListener_ok_shape (g p : Int) (s₀ : LimitedListener)
    (h : NewLimitedListener g p = .ok s₀) :
    s₀.connections = [] ∧ s₀.nextId = 0 := by
  unfold NewLimitedListener at h
  split_ifs at h
  all_goals cases h
  exact ⟨rfl, rfl⟩

/-- C5: after any well-formed sequence of `Accept`, `SetLimits` and `Close`
operations on a freshly constructed listener, the registry holds exactly
the connections `Accept` returned whose `Close` has not completed; when no
connection is closed twice, the registry size is the number of successful
`Accept` calls minus the number of `Close` calls. -/
theorem registry_invariant (g p : Int) (s₀ : LimitedListener)
    (h₀ : NewLimitedListener g p = .ok s₀) (evs : List Ev)
    (hwf : wf 0 evs = true) :
    (run s₀ evs).connections
      = (acceptedFrom 0 evs).filter (fun j => j ∉ closedOf evs) ∧
    ((closedOf evs).Nodup →
      (run s₀ evs).connections.length
        = (acceptedFrom 0 evs).length - (closedOf evs).length) := by
  obtain ⟨hc, hn⟩ := newLimitedListener_ok_shape g p s₀ h₀
  have hmain := run_connections evs s₀ (by rw [hn]; exact hwf)
  rw [hc, hn] at hmain
  simp only [List.filter_nil, List.nil_append] at hmain
  refine ⟨hmain, ?_⟩
  intro hnd
  rw [hmain]
  apply length_filter_not_mem _ _ (acceptedFrom_nodup evs 0) hnd
  intro c hcmem
  have := closedOf_lt evs 0 hwf c hcmem
  exact (acceptedFrom_mem_iff evs 0 c).mpr (by omega)

/-- Witness for C5: a concrete trace — two accepts, a close of the first
connection, a failed accept and a limit update — on a fresh listener. -/
theorem registry_invariant_witness :
    ((run { globalLimiter := ⟨10, 10⟩, perConnBandwidthLimit := 5,
            connections := [], limiters := fun _ => rateNewLimiter 0 0,
            nextId := 0 }
        [.acceptOk, .acceptOk, .closeEv 0 none, .acceptFail (.transport 1),
         .setLim 20 7]).connections
      = (acceptedFrom 0
          [.acceptOk, .acceptOk, .closeEv 0 none, .acceptFail (.transport 1),
           .setLim 20 7]).filter
          (fun j => j ∉ closedOf
            [.acceptOk, .acceptOk, .closeEv 0 none, .acceptFail (.transport 1),
             .setLim 20 7])) ∧
    ((closedOf [.acceptOk, .acceptOk, .closeEv 0 none,
        .acceptFail (.transport 1), .setLim 20 7]).Nodup →
      (run { globalLimiter := ⟨10, 10⟩, perConnBandwidthLimit := 5,
             connections := [], limiters := fun _ => rateNewLimiter 0 0,
             nextId := 0 }
          [.acceptOk, .acceptOk, .closeEv 0 none, .acceptFail (.transport 1),
           .setLim 20 7]).connections.length
        = (acceptedFrom 0
            [.acceptOk, .acceptOk, .closeEv 0 none, .acceptFail (.transport 1),
             .setLim 20 7]).length
          - (closedOf [.acceptOk, .acceptOk, .closeEv 0 none,
              .acceptFail (.transport 1), .setLim 20 7]).length) :=
  registry_invariant 10 5 _ rfl _ (by decide)

/-- C3: `NewLimitedListener` returns `ErrLimitOutOfRange` when either limit
is nonpositive; returns `ErrInvalidLimits` when both are positive but the
global limit is below the per-connection limit; and succeeds for every pair
with `0 < perConn ≤ global`, with the global limiter built with rate and
burst both equal to `global` and the per-connection limit stored. -/
theorem newLimitedListener_cases (g p : Int) :
    ((g ≤ 0 ∨ p ≤ 0) → NewLimitedListener g p = .error .errLimitOutOfRange) ∧
    (0 < g → 0 < p → g < p → NewLimitedListener g p = .error .errInvalidLimits) ∧
    (0 < p → p ≤ g → ∃ l, NewLimitedListener g p = .ok l ∧
      l.globalLimiter = ⟨g, g⟩ ∧ l.perConnBandwidthLimit = p) := by
  refine ⟨?_, ?_, ?_⟩
  · intro h
    simp [NewLimitedListener, h]
  · intro hg hp hlt
    have h1 : ¬ (g ≤ 0 ∨ p ≤ 0) := by omega
    simp [NewLimitedListener, h1, hlt]
  · intro hp hle
    have h1 : ¬ (g ≤ 0 ∨ p ≤ 0) := by omega
    have h2 : ¬ g < p := by omega
    refine ⟨{ globalLimiter := ⟨g, g⟩, perConnBandwidthLimit := p,
              connections := [], limiters := fun _ => rateNewLimiter 0 0,
              nextId := 0 }, ?_, rfl, rfl⟩
    simp [NewLimitedListener, h1, h2, rateNewLimiter]

/-- Witness for C3: the three branches at concrete inputs
`(0, 5)`, `(5, 10)` and `(10, 5)`. -/
theorem newLimitedListener_cases_witness :
    NewLimitedListener 0 5 = .error .errLimitOutOfRange ∧
    NewLimitedListener 5 10 = .error .errInvalidLimits ∧
    ∃ l, NewLimitedListener 10 5 = .ok l ∧
      l.globalLimiter = ⟨10, 10⟩ ∧ l.perConnBandwidthLimit = 5 :=
  ⟨(newLimitedListener_cases 0 5).1 (by omega),
   (newLimitedListener_cases 5 10).2.1 (by omega) (by omega) (by omega),
   (newLimitedListener_cases 10 5).2.2 (by omega) (by omega)⟩

/-- C2: `SetLimits` with valid values sets rate and burst of the global
limiter to `global`, stores `perConn` as the limit seeding every future
`Accept`, keeps the registry unchanged, and sets rate and burst of the
private limiter of every registered connection to `perConn`. -/
theorem setLimits_valid (s : LimitedListener) (g p : Int)
    (hg : 0 < g) (hp : 0 < p) (hle : p ≤ g) :
    (setLimits s g p).globalLimiter = ⟨g, g⟩ ∧
    (setLimits s g p).perConnBandwidthLimit = p ∧
    (setLimits s g p).connections = s.connections ∧
    (∀ id ∈ s.connections, (setLimits s g p).limiters id = ⟨p, p⟩) ∧
    (accept (setLimits s g p) (.ok ())).1.limiters (setLimits s g p).nextId
      = ⟨p, p⟩ := by
  have hcond : ¬ (g ≤ 0 ∨ p ≤ 0 ∨ g < p) := by omega
  refine ⟨?_, ?_, ?_, ?_, ?_⟩ <;>
    simp [setLimits, accept, rateNewLimiter, hcond]
  intro id hid
  simp [hid]

/-- Witness for C2: `SetLimits(20, 7)` on the sample listener. -/
theorem setLimits_valid_witness :
    (setLimits sampleListener 20 7).globalLimiter = ⟨20, 20⟩ ∧
    (setLimits sampleListener 20 7).perConnBandwidthLimit = 7 ∧
    (setLimits sampleListener 20 7).connections = sampleListener.connections ∧
    (∀ id ∈ sampleListener.connections,
      (setLimits sampleListener 20 7).limiters id = ⟨7, 7⟩) ∧
    (accept (setLimits sampleListener 20 7) (.ok ())).1.limiters
      (setLimits sampleListener 20 7).nextId = ⟨7, 7⟩ :=
  setLimits_valid sampleListener 20 7 (by omega) (by omega) (by omega)

/-- C4: `SetLimits` with invalid values (`global ≤ 0`, or `perConn ≤ 0`, or
`global < perConn`) returns with no error and leaves the whole listener
state — global limiter, stored per-connection limit, registry, and every
private limiter — exactly as it was. -/
theorem setLimits_invalid (s : LimitedListener) (g p : Int)
    (h : g ≤ 0 ∨ p ≤ 0 ∨ g < p) :
    setLimits s g p = s := by
  simp [setLimits, h]

/-- Witness for C4: `SetLimits(0, 5)` on the sample listener is a no-op. -/
theorem setLimits_invalid_witness :
    setLimits sampleListener 0 5 = sampleListener :=
  setLimits_invalid sampleListener 0 5 (by omega)

/-- Removing the same connection twice is the same as removing it once:
deleting an absent key from the map changes nothing. -/
theorem removeConnection_idem (s : LimitedListener) (id : Nat) :
    removeConnection (removeConnection s id) id = removeConnection s id := by
  simp [removeConnection, List.filter_filter]

/-- C6: `Close` forwards the underlying close result unchanged and removes
the connection from the registry of its listener; a second `Close` on the
same connection changes nothing further (no re-deregistration, no error of
its own) and still passes the underlying close result through. -/
theorem close_idempotent (s : LimitedListener) (id : Nat)
    (e₁ e₂ : Option GoErr) :
    (closeConn s id true e₁).2 = e₁ ∧
    (closeConn s id true e₁).1.connections
      = s.connections.filter (fun j => j ≠ id) ∧
    closeConn (closeConn s id true e₁).1 id true e₂
      = ((closeConn s id true e₁).1, e₂) := by
  refine ⟨rfl, rfl, ?_⟩
  simp only [closeConn, if_pos rfl]
  exact congrArg (fun t => (t, e₂)) (removeConnection_idem s id)

/-- C7: `Accept` propagates an error of the underlying listener unchanged
and registers nothing in that case; on success it returns a fresh
connection whose private limiter has rate and burst equal to the current
per-connection limit, sharing the global limiter of the listener, and the
registry grows by exactly that connection. -/
theorem accept_spec (s : LimitedListener) (e : GoErr)
    (hfresh : ∀ j ∈ s.connections, j < s.nextId) :
    accept s (.error e) = (s, .error e) ∧
    (accept s (.ok ())).2 = .ok s.nextId ∧
    s.nextId ∉ s.connections ∧
    (accept s (.ok ())).1.connections = s.connections ++ [s.nextId] ∧
    (accept s (.ok ())).1.limiters s.nextId
      = ⟨s.perConnBandwidthLimit, s.perConnBandwidthLimit⟩ ∧
    (accept s (.ok ())).1.globalLimiter = s.globalLimiter ∧
    (accept s (.ok ())).1.perConnBandwidthLimit = s.perConnBandwidthLimit := by
  refine ⟨rfl, rfl, ?_, rfl, ?_, rfl, rfl⟩
  · intro hmem
    exact absurd (hfresh _ hmem) (lt_irrefl _)
  · simp [accept, rateNewLimiter]

/-- Witness for C7: `Accept` on the sample listener. -/
theorem accept_spec_witness :
    accept sampleListener (.error (.transport 3))
      = (sampleListener, .error (.transport 3)) ∧
    (accept sampleListener (.ok ())).2 = .ok 2 ∧
    (2 : Nat) ∉ sampleListener.connections ∧
    (accept sampleListener (.ok ())).1.connections = [0, 1, 2] ∧
    (accept sampleListener (.ok ())).1.limiters 2 = ⟨5, 5⟩ ∧
    (accept sampleListener (.ok ())).1.globalLimiter = ⟨10, 10⟩ ∧
    (accept sampleListener (.ok ())).1.perConnBandwidthLimit = 5 :=
  accept_spec sampleListener (.transport 3) (by decide)

/-- A freshly constructed listener satisfies the burst-equals-rate
property. -/
theorem newLimitedListener_burstInv (g p : Int) (s₀ : LimitedListener)
    (h : NewLimitedListener g p = .ok s₀) : burstInv s₀ := by
  unfold NewLimitedListener at h
  split_ifs at h
  all_goals cases h
  exact ⟨rfl, fun id hid => rfl⟩

/-- Every operation preserves the burst-equals-rate property. -/
theorem burstInv_step (s : LimitedListener) (ev : Ev) (h : burstInv s) :
    burstInv (step s ev) := by
  obtain ⟨hgl, hl⟩ := h
  cases ev with
  | acceptOk =>
      refine ⟨hgl, ?_⟩
      intro id hid
      have hn : (step s Ev.acceptOk).nextId = s.nextId + 1 := rfl
      rw [hn] at hid
      by_cases hji : id = s.nextId
      · subst hji
        simp [step, accept, rateNewLimiter]
      · have hlt : id < s.nextId := by omega
        simpa [step, accept, rateNewLimiter, hji] using hl id hlt
  | acceptFail e => exact ⟨hgl, hl⟩
  | setLim g' p' =>
      by_cases hcond : g' ≤ 0 ∨ p' ≤ 0 ∨ g' < p'
      · have hid : step s (.setLim g' p') = s := by
          simp [step, setLimits, hcond]
        rw [hid]
        exact ⟨hgl, hl⟩
      · refine ⟨?_, ?_⟩
        · simp [step, setLimits, hcond]
        · intro id hid
          have hn : (step s (.setLim g' p')).nextId = s.nextId :=
            setLimits_nextId s g' p'
          rw [hn] at hid
          by_cases hmem : id ∈ s.connections
          · simp [step, setLimits, hcond, hmem]
          · simpa [step, setLimits, hcond, hmem] using hl id hid
  | closeEv id e => exact ⟨hgl, hl⟩

/-- The burst-equals-rate property is preserved by whole traces. -/
theorem burstInv_run (s : LimitedListener) (evs : List Ev)
    (h : burstInv s) : burstInv (run s evs) := by
  induction evs generalizing s with
  | nil => exact h
  | cons ev t ih => exact ih (step s ev) (burstInv_step s ev h)

/-- C10: after any sequence of operations on a freshly constructed
listener, every limiter in the system — the global limiter and the private
limiter of every connection created so far — has burst capacity equal to
its rate: `NewLimitedListener`, `NewLimitedConnection` (inside `Accept`)
and `SetLimits` all install the same value for both. -/
theorem burst_eq_rate_invariant (g p : Int) (s₀ : LimitedListener)
    (h₀ : NewLimitedListener g p = .ok s₀) (evs : List Ev) :
    (run s₀ evs).globalLimiter.burst = (run s₀ evs).globalLimiter.limit ∧
    ∀ id < (run s₀ evs).nextId,
      ((run s₀ evs).limiters id).burst = ((run s₀ evs).limiters id).limit :=
  burstInv_run s₀ evs (newLimitedListener_burstInv g p s₀ h₀)

/-- Witness for C10: a concrete trace with an accept, a valid and an
invalid limit update, a close and another accept. -/
theorem burst_eq_rate_invariant_witness :
    (run { globalLimiter := rateNewLimiter 10 10, perConnBandwidthLimit := 5,
           connections := [], limiters := fun _ => rateNewLimiter 0 0,
           nextId := 0 }
        [.acceptOk, .setLim 20 7, .setLim 0 3, .closeEv 0 none,
         .acceptOk]).globalLimiter.burst
      = (run { globalLimiter := rateNewLimiter 10 10,
               perConnBandwidthLimit := 5, connections := [],
               limiters := fun _ => rateNewLimiter 0 0, nextId := 0 }
          [.acceptOk, .setLim 20 7, .setLim 0 3, .closeEv 0 none,
           .acceptOk]).globalLimiter.limit ∧
    ∀ id < (run { globalLimiter := rateNewLimiter 10 10,
                  perConnBandwidthLimit := 5, connections := [],
                  limiters := fun _ => rateNewLimiter 0 0, nextId := 0 }
        [.acceptOk, .setLim 20 7, .setLim 0 3, .closeEv 0 none,
         .acceptOk]).nextId,
      ((run { globalLimiter := rateNewLimiter 10 10,
              perConnBandwidthLimit := 5, connections := [],
              limiters := fun _ => rateNewLimiter 0 0, nextId := 0 }
          [.acceptOk, .setLim 20 7, .setLim 0 3, .closeEv 0 none,
           .acceptOk]).limiters id).burst
        = ((run { globalLimiter := rateNewLimiter 10 10,
                  perConnBandwidthLimit := 5, connections := [],
                  limiters := fun _ => rateNewLimiter 0 0, nextId := 0 }
            [.acceptOk, .setLim 20 7, .setLim 0 3, .closeEv 0 none,
             .acceptOk]).limiters id).limit :=
  burst_eq_rate_invariant 10 5 _ rfl _

/-- `if a > b then b else a` (the Go capping pattern) is `min a b`. -/
theorem if_gt_eq_min (a b : Int) : (if a > b then b else a) = min a b := by
  rcases le_or_lt a b with h | h
  · rw [if_neg (not_lt.mpr h), min_eq_left h]
  · rw [if_pos h, min_eq_right h.le]

/-- C1: on a non-empty buffer, when both waits succeed, `Read` consumes
`min(len(b), burst)` tokens from the global limiter first, re-reads the
burst, shrinks the request again, consumes the shrunk amount from the
private limiter, and returns the underlying read of exactly that many
bytes unchanged; as the transport returns at most the requested slice, the
byte count never exceeds `min(len(b), burst)` for either burst reading. -/
theorem read_two_stage (lenB : Int) (o : ReadOracle)
    (hlen : 0 < lenB)
    (hg : o.globalWaitErr = none) (hl : o.localWaitErr = none)
    (hconn : ∀ a, (o.connRead a).1 ≤ a) :
    limitedConnectionRead lenB o
      = (o.connRead (min (min lenB o.burst1) o.burst2),
         [.globalConsume (min lenB o.burst1),
          .localConsume (min (min lenB o.burst1) o.burst2)]) ∧
    (limitedConnectionRead lenB o).1.1 ≤ min lenB o.burst1 ∧
    (limitedConnectionRead lenB o).1.1 ≤ o.burst2 := by
  have hmain : limitedConnectionRead lenB o
      = (o.connRead (min (min lenB o.burst1) o.burst2),
         [.globalConsume (min lenB o.burst1),
          .localConsume (min (min lenB o.burst1) o.burst2)]) := by
    simp only [limitedConnectionRead, hg, hl, if_gt_eq_min]
  refine ⟨hmain, ?_, ?_⟩
  · rw [hmain]
    exact le_trans (hconn _) (min_le_left _ _)
  · rw [hmain]
    exact le_trans (hconn _) (min_le_right _ _)

/-- Witness for C1: a 10-byte buffer, burst 8 at the first check, burst
shrunk to 4 during the global wait, and a transport that delivers the full
slice. -/
theorem read_two_stage_witness :
    limitedConnectionRead 10 ⟨8, none, 4, none, fun a => (a, none)⟩
      = ((fun a => ((a : Int), (none : Option GoErr))) (min (min 10 8) 4),
         [.globalConsume (min 10 8), .localConsume (min (min 10 8) 4)]) ∧
    (limitedConnectionRead 10 ⟨8, none, 4, none, fun a => (a, none)⟩).1.1
      ≤ min 10 8 ∧
    (limitedConnectionRead 10 ⟨8, none, 4, none, fun a => (a, none)⟩).1.1
      ≤ 4 :=
  read_two_stage 10 ⟨8, none, 4, none, fun a => (a, none)⟩ (by omega)
    rfl rfl (fun a => le_refl a)

/-- C8 counterexample: with a 4-byte buffer and every wait succeeding, the
`Write` of the package variant consumes only from its single private
limiter — not the global-then-local two-stage consume that `Read` performs
on the same buffer — and the `Write` of the main implementation consumes
no tokens at all. -/
theorem write_not_two_stage_counterexample :
    (limitedConnectionWrite 4 none (fun a => (a, none))).2
      = [.localConsume 4] ∧
    (limitedConnectionWrite 4 none (fun a => (a, none))).2
      ≠ [.globalConsume 4, .localConsume 4] ∧
    (limitedConnectionWriteMain 4 (fun a => (a, none))).2 = [] ∧
    (limitedConnectionRead 4 ⟨100, none, 100, none, fun a => (a, none)⟩).2
      = [.globalConsume 4, .localConsume 4] := by
  refine ⟨rfl, ?_, rfl, ?_⟩
  · decide
  · simp [limitedConnectionRead]

/-- C8 amended: the package variant `Write` performs a single-stage
consume — `len(buffer)` tokens from its private limiter only, with no
capping and no global stage — before writing, and passes a wait error
through unchanged with 0 bytes; the main implementation forwards `Write`
to the underlying connection without consuming any tokens. -/
theorem write_local_only (lenB : Int) (e : GoErr)
    (cw : Int → Int × Option GoErr) :
    limitedConnectionWrite lenB (some e) cw = ((0, some e), []) ∧
    limitedConnectionWrite lenB none cw = (cw lenB, [.localConsume lenB]) ∧
    limitedConnectionWriteMain lenB cw = (cw lenB, []) :=
  ⟨rfl, rfl, rfl⟩

/-- C9 counterexample: both waits of `Read` run under the context the
method itself builds with `context.Background()`, which is neither
cancellable nor carries a deadline, so no external cancellation or
deadline signal can interrupt them. -/
theorem read_waits_not_externally_interruptible :
    externallyInterruptible readWaitContext = false := rfl

/-- C9 amended: an error of the global wait is returned as
`fmt.Errorf("global: %v", err)` with 0 bytes, an error of the local wait
as `fmt.Errorf("local: %v", err)` with 0 bytes, and the two wrappings are
distinguishable from each other and from transport errors. -/
theorem read_consume_error (lenB : Int) (o o2 : ReadOracle) (e e2 : GoErr)
    (hg : o.globalWaitErr = some e)
    (hg2 : o2.globalWaitErr = none) (hl2 : o2.localWaitErr = some e2) :
    (limitedConnectionRead lenB o).1 = (0, some (.wrapGlobal e)) ∧
    (limitedConnectionRead lenB o2).1 = (0, some (.wrapLocal e2)) ∧
    GoErr.wrapGlobal e ≠ GoErr.wrapLocal e2 ∧
    (∀ t : Nat, GoErr.wrapGlobal e ≠ .transport t ∧
      GoErr.wrapLocal e2 ≠ .transport t) := by
  refine ⟨?_, ?_, ?_, ?_⟩
  · simp [limitedConnectionRead, hg]
  · simp [limitedConnectionRead, hg2, hl2]
  · intro h
    cases h
  · intro t
    refine ⟨?_, ?_⟩
    · intro h
      cases h
    · intro h
      cases h

/-- Witness for C9 amended: a global wait failure and a local wait failure
at concrete oracles. -/
theorem read_consume_error_witness :
    (limitedConnectionRead 10
        ⟨8, some (.rateWait 0), 8, none, fun a => (a, none)⟩).1
      = (0, some (.wrapGlobal (.rateWait 0))) ∧
    (limitedConnectionRead 10
        ⟨8, none, 8, some (.rateWait 1), fun a => (a, none)⟩).1
      = (0, some (.wrapLocal (.rateWait 1))) ∧
    GoErr.wrapGlobal (.rateWait 0) ≠ GoErr.wrapLocal (.rateWait 1) ∧
    (∀ t : Nat, GoErr.wrapGlobal (.rateWait 0) ≠ .transport t ∧
      GoErr.wrapLocal (.rateWait 1) ≠ .transport t) :=
  read_consume_error 10
    ⟨8, some (.rateWait 0), 8, none, fun a => (a, none)⟩
    ⟨8, none, 8, some (.rateWait 1), fun a => (a, none)⟩
    (.rateWait 0) (.rateWait 1) rfl rfl rfl
